import Mathlib

/-!
# Student Result Management System — shallow embedding

A shallow embedding in Lean of the core data model and operations of a
Flask + SQLite student result manager (`app.py`): the grading engine
`compute_totals`, the Result upsert used by the admin form and the results
CSV import, student creation with its uniqueness constraint, cascade
deletion of a ClassRoom, the student portal read, the students CSV
export/import round trip, and the students-page pagination flag.

Database rows are modelled as Lean structures; the store is a record of
lists of rows.  SQLite `Integer` columns are modelled as `Int`; nullable
text columns as `Option String`.  Python `float` percentages are modelled
with exact rationals, and Python's built-in `round` (which rounds half to
even) is modelled by `pyRound2`.
-/

namespace SRMS

/-- A row of the `results` table (`class Result`): links a student to a
subject with integer `marks` and `max_marks`. -/
structure ResultRow where
  student_id : Int
  subject_id : Int
  marks : Int
  max_marks : Int
  deriving DecidableEq, Repr

/-- A row of the `students` table (`class Student`). -/
structure StudentRow where
  id : Int
  reg_no : String
  name : String
  email : Option String
  class_id : Int
  deriving DecidableEq, Repr

/-- A row of the `classes` table (`class ClassRoom`); `sec` models the
nullable `section` column. -/
structure ClassRow where
  id : Int
  name : String
  sec : Option String
  deriving DecidableEq, Repr

/-- A row of the `subjects` table (`class Subject`). -/
structure SubjectRow where
  id : Int
  name : String
  class_id : Int
  deriving DecidableEq, Repr

/-- Round a rational to the nearest integer, ties to even: the behaviour
of Python's built-in `round` on exactly-representable values. -/
def rndHalfEven (q : ℚ) : ℤ :=
  let f := ⌊q⌋
  let r := q - f
  if r < 1/2 then f
  else if 1/2 < r then f + 1
  else if f % 2 = 0 then f else f + 1

/-- `round(x, 2)` in Python: round to two fractional decimal digits,
ties to even. -/
def pyRound2 (q : ℚ) : ℚ :=
  (rndHalfEven (q * 100) : ℚ) / 100

/-- The grade ladder of `compute_totals` (`app.py` lines 170–178): a
chain of conditional expressions evaluated top-down. -/
def letterGrade (percentage : ℚ) : String :=
  if percentage ≥ 90 then "A+"
  else if percentage ≥ 80 then "A"
  else if percentage ≥ 70 then "B+"
  else if percentage ≥ 60 then "B"
  else if percentage ≥ 50 then "C"
  else if percentage ≥ 40 then "D"
  else "F"

/-- The 4-tuple returned by `compute_totals`. -/
structure Totals where
  total : Int
  max_total : Int
  percentage : ℚ
  grade : String
  deriving DecidableEq, Repr

/-- `compute_totals` (`app.py` lines 166–179): sum the marks, sum the
max marks (`or 1` replaces a zero sum by 1), compute the percentage with
`round(..., 2)`, and grade it on the ladder. -/
def compute_totals (results : List ResultRow) : Totals :=
  let total : Int := (results.map (·.marks)).sum
  let sumMax : Int := (results.map (·.max_marks)).sum
  let max_total : Int := if sumMax = 0 then 1 else sumMax
  let percentage := pyRound2 ((total : ℚ) / (max_total : ℚ) * 100)
  { total := total, max_total := max_total, percentage := percentage,
    grade := letterGrade percentage }

/-- The result-save core of `admin_results_add` (`app.py` lines
874–884): look up the first Result row for the `(student_id,
subject_id)` pair; if one exists assign its `marks` and `max_marks` in
place, otherwise `db.add` a fresh row (appended at the end of the
table). -/
def resultUpsert (sid subid m mm : Int) : List ResultRow → List ResultRow
  | [] => [⟨sid, subid, m, mm⟩]
  | r :: rest =>
    if r.student_id = sid ∧ r.subject_id = subid then
      { r with marks := m, max_marks := mm } :: rest
    else
      r :: resultUpsert sid subid m mm rest

/-- A row of the results CSV (`reg_no,subject,marks,max_marks`), with
the two numeric fields already parsed by `int(...)`. -/
structure ResultCsvRow where
  reg_no : String
  subject : String
  marks : Int
  max_marks : Int
  deriving DecidableEq, Repr

/-- Lookup in a Python dict built from an association list by
comprehension: the last binding of a key wins. -/
def dictGet (m : List (String × Int)) (k : String) : Option Int :=
  (m.reverse.find? (fun p => p.1 == k)).map (·.2)

/-- One loop iteration of `admin_results_import` (`app.py` lines
921–934): resolve the row's `reg_no` and `subject` in the class-scoped
maps, skip the row when either is missing (Python's `if not sid or not
subid: continue` also skips a resolved id of 0), otherwise upsert. -/
def importResultRow (studentsByReg subs : List (String × Int))
    (rs : List ResultRow) (row : ResultCsvRow) : List ResultRow :=
  match dictGet studentsByReg row.reg_no, dictGet subs row.subject with
  | some sid, some subid =>
    if sid = 0 ∨ subid = 0 then rs
    else resultUpsert sid subid row.marks row.max_marks rs
  | _, _ => rs

/-- `admin_results_import` (`app.py` lines 907–937): build the
class-scoped `reg_no → id` and `subject name → id` maps, then fold the
CSV rows through `importResultRow`. -/
def admin_results_import (class_id : Int) (students : List StudentRow)
    (subjects : List SubjectRow) (rows : List ResultCsvRow)
    (rs : List ResultRow) : List ResultRow :=
  let students_by_reg := (students.filter (·.class_id = class_id)).map
    (fun s => (s.reg_no, s.id))
  let subs := (subjects.filter (·.class_id = class_id)).map
    (fun s => (s.name, s.id))
  rows.foldl (importResultRow students_by_reg subs) rs

/-- A result-save operation: either the admin add/update form or a
results CSV import. -/
inductive SaveOp where
  | formSave (student_id subject_id marks max_marks : Int)
  | csvImport (class_id : Int) (students : List StudentRow)
      (subjects : List SubjectRow) (rows : List ResultCsvRow)

/-- Apply one result-save operation to the results table. -/
def applySaveOp (rs : List ResultRow) : SaveOp → List ResultRow
  | .formSave sid subid m mm => resultUpsert sid subid m mm rs
  | .csvImport cid students subjects rows =>
    admin_results_import cid students subjects rows rs

/-- Apply a sequence of result-save operations. -/
def applySaveOps (rs : List ResultRow) (ops : List SaveOp) : List ResultRow :=
  ops.foldl applySaveOp rs

/-- At most one Result row per `(student_id, subject_id)` pair: the
`uq_result_student_subject` unique constraint. -/
def pairUnique (rs : List ResultRow) : Prop :=
  rs.Pairwise (fun a b => ¬(a.student_id = b.student_id ∧ a.subject_id = b.subject_id))

/-- Outcome of `admin_students_add`: the flashed message category. -/
inductive AddStudentOutcome where
  | added
  | validationWarning
  | duplicateWarning
  deriving DecidableEq, Repr

/-- The storage core of `admin_students_add` (`app.py` lines 714–742):
reject when a required form field is empty, otherwise insert the new
Student and commit; a commit that violates the unique constraints on
`reg_no` (or on a non-null `email`) raises, is caught, rolled back, and
reported as a duplicate warning, leaving the table unchanged.  The
password is stored only as a hash and no claim depends on it, so the
credential column is not modelled. -/
def admin_students_add (students : List StudentRow) (nextId : Int)
    (reg_no name : String) (email : Option String) (class_id : Int)
    (password : String) : List StudentRow × AddStudentOutcome :=
  if reg_no = "" ∨ name = "" ∨ password = "" then
    (students, .validationWarning)
  else if ∃ t ∈ students, t.reg_no = reg_no ∨ (email ≠ none ∧ t.email = email) then
    (students, .duplicateWarning)
  else
    (students ++ [⟨nextId, reg_no, name, email, class_id⟩], .added)

/-- The database: one list of rows per table, plus the autoincrement
counters handed out for new ClassRoom and Student primary keys. -/
structure Store where
  classes : List ClassRow
  students : List StudentRow
  subjects : List SubjectRow
  results : List ResultRow
  nextClassId : Int
  nextStudentId : Int
  deriving DecidableEq, Repr

/-- ORM cascade of deleting one Student (`Student.results` has
`cascade="all, delete"`, `app.py` line 88): the student's Result rows go
with it. -/
def cascadeDeleteStudent (s : Store) (sid : Int) : Store :=
  { s with
    students := s.students.filter (fun t => !(t.id == sid)),
    results := s.results.filter (fun r => !(r.student_id == sid)) }

/-- `admin_classes_delete` (`app.py` lines 679–691) with the ORM
cascade on `ClassRoom.students` (`app.py` line 76): a missing class is a
404; otherwise each Student of the class is cascade-deleted (taking its
Results along) and then the class row is removed.  `ClassRoom` declares
no cascade over its Subjects, so subject rows are untouched. -/
def admin_classes_delete (s : Store) (class_id : Int) : Option Store :=
  if ∃ c ∈ s.classes, c.id = class_id then
    let victims := (s.students.filter (fun t => t.class_id == class_id)).map (·.id)
    let s1 := victims.foldl cascadeDeleteStudent s
    some { s1 with classes := s1.classes.filter (fun c => !(c.id == class_id)) }
  else
    none

/-- Insert into a list sorted by `le` (used to model SQL `ORDER BY`). -/
def insertSorted {α : Type} (le : α → α → Bool) (a : α) : List α → List α
  | [] => [a]
  | x :: xs => if le a x then a :: x :: xs else x :: insertSorted le a xs

/-- Insertion sort by `le` (used to model SQL `ORDER BY`). -/
def sortBy {α : Type} (le : α → α → Bool) : List α → List α
  | [] => []
  | a :: rest => insertSorted le a (sortBy le rest)

/-- The display name of a result row's subject, the `ORDER BY
Subject.name` key of the portal query. -/
def subjName (subjects : List SubjectRow) (r : ResultRow) : String :=
  ((subjects.find? (fun sub => sub.id == r.subject_id)).map (·.name)).getD ""

/-- The read performed by `student_portal` (`app.py` lines 1010–1025):
load the session's student (`none` models the unhandled fault when the
session id no longer resolves), then query Results filtered to that
student's own id, inner-joined to Subject and ordered by subject name. -/
def student_portal_results (s : Store) (session_student_id : Int) :
    Option (List ResultRow) :=
  match s.students.find? (fun t => t.id == session_student_id) with
  | none => none
  | some st =>
    let owned := s.results.filter (fun r => r.student_id == st.id)
    let joined := owned.filter (fun r => s.subjects.any (fun sub => sub.id == r.subject_id))
    some (sortBy (fun a b => subjName s.subjects a ≤ subjName s.subjects b) joined)

/-- The read performed by `student_marksheet` (`app.py` lines
1027–1042): textually the same query as the portal's. -/
def student_marksheet_results (s : Store) (session_student_id : Int) :
    Option (List ResultRow) :=
  match s.students.find? (fun t => t.id == session_student_id) with
  | none => none
  | some st =>
    let owned := s.results.filter (fun r => r.student_id == st.id)
    let joined := owned.filter (fun r => s.subjects.any (fun sub => sub.id == r.subject_id))
    some (sortBy (fun a b => subjName s.subjects a ≤ subjName s.subjects b) joined)

/-- SQL `ilike '%pat%'`: case-insensitive substring match. -/
def ilike (pat s : String) : Bool :=
  decide ((pat.toLower).toList <:+: (s.toLower).toList)

/-- The search predicate of `admin_students` (`app.py` lines 701–707):
no query matches everything; a query matches on name OR reg_no,
case-insensitively. -/
def matchesQ (q : Option String) (t : StudentRow) : Bool :=
  match q with
  | none => true
  | some p => ilike p t.name || ilike p t.reg_no

/-- `admin_students` (`app.py` lines 696–712): clamp the page to at
least 1, filter by the search predicate, count the matches, slice the
id-descending ordering by offset `(page-1)*pp` and limit `pp`, and
report `has_more = page * pp < total_count`. -/
def admin_students_page (students : List StudentRow) (q : Option String)
    (page pp : Int) : List StudentRow × Bool :=
  let page := max 1 page
  let filtered := students.filter (matchesQ q)
  let total_count : Int := filtered.length
  let listed := ((sortBy (fun a b => b.id ≤ a.id) filtered).drop
    ((page - 1) * pp).toNat).take pp.toNat
  let has_more := decide (page * pp < total_count)
  (listed, has_more)

/-- 23 students, all matched by an empty search. -/
def sample23 : List StudentRow :=
  (List.range 23).map (fun i => ⟨(i : Int) + 1, "R" ++ toString i, "Student", none, 1⟩)

/-- Python's `x or ""` on a nullable column value, as written by the
CSV export. -/
def orBlank : Option String → String
  | none => ""
  | some x => x

/-- Python's `x or None` on a CSV field, as read by the CSV import. -/
def orNone (x : String) : Option String :=
  if x = "" then none else some x

/-- A row of the students CSV
(`reg_no,name,email,class_name,section`); `sec` is the `section`
column. -/
structure StudentCsvRow where
  reg_no : String
  name : String
  email : String
  class_name : String
  sec : String
  deriving DecidableEq, Repr

/-- `admin_students_export` (`app.py` lines 758–769):
`query(Student).join(ClassRoom)` emits one CSV row per student/class
pair matched on `class_id`, with `or ""` on the nullable columns. -/
def admin_students_export (s : Store) : List StudentCsvRow :=
  s.students.flatMap (fun st =>
    (s.classes.filter (fun c => c.id == st.class_id)).map (fun c =>
      ⟨st.reg_no, st.name, orBlank st.email, c.name, orBlank c.sec⟩))

/-- The creation step shared by both branches of the import loop body:
skip the row if its `reg_no` already exists, otherwise add the Student
under class `c` with the next primary key (the fixed default password
credential is not modelled, as for `admin_students_add`). -/
def addStudentIfNew (s : Store) (c : ClassRow) (row : StudentCsvRow) : Store :=
  if s.students.any (fun t => t.reg_no == row.reg_no) then s
  else
    { s with
      students := s.students ++
        [⟨s.nextStudentId, row.reg_no, row.name, orNone row.email, c.id⟩],
      nextStudentId := s.nextStudentId + 1 }

/-- One loop iteration of `admin_students_import` (`app.py` lines
783–793): resolve the row's `(class_name, section)` ClassRoom or
auto-create it with the next primary key, then add the Student unless
its `reg_no` already exists. -/
def admin_students_import_row (s : Store) (row : StudentCsvRow) : Store :=
  match s.classes.find? (fun c => c.name == row.class_name && c.sec == orNone row.sec) with
  | some c => addStudentIfNew s c row
  | none =>
    let c : ClassRow := ⟨s.nextClassId, row.class_name, orNone row.sec⟩
    addStudentIfNew
      { s with classes := s.classes ++ [c], nextClassId := s.nextClassId + 1 }
      c row

/-- `admin_students_import` (`app.py` lines 771–796): fold the CSV rows
through the import loop body. -/
def admin_students_import (s : Store) (rows : List StudentCsvRow) : Store :=
  rows.foldl admin_students_import_row s

/-- A store with no rows; primary keys start at 1. -/
def emptyStore : Store := ⟨[], [], [], [], 1, 1⟩

/-- The `(reg_no, name, class_name, section)` view of one student
joined to its ClassRoom, as compared by the round-trip property. -/
def studentTuples (s : Store) : List (String × String × String × String) :=
  s.students.flatMap (fun st =>
    (s.classes.filter (fun c => c.id == st.class_id)).map (fun c =>
      (st.reg_no, st.name, c.name, orBlank c.sec)))

/-- The `(reg_no, name, class_name, section)` view of a CSV row. -/
def rowTuple (r : StudentCsvRow) : String × String × String × String :=
  (r.reg_no, r.name, r.class_name, r.sec)

/-- The `(name, section)` pairs of the ClassRoom table, as strings. -/
def classPairs (s : Store) : List (String × String) :=
  s.classes.map (fun c => (c.name, orBlank c.sec))

/-- The `(class_name, section)` pair of a CSV row. -/
def rowPair (r : StudentCsvRow) : String × String :=
  (r.class_name, r.sec)

/-- Invariant maintained by the student CSV import: class primary keys
are distinct and below the autoincrement counter, and every student's
`class_id` resolves to a class row. -/
def ImportInv (s : Store) : Prop :=
  (s.classes.map (·.id)).Nodup ∧
  (∀ c ∈ s.classes, c.id < s.nextClassId) ∧
  (∀ t ∈ s.students, ∃ c ∈ s.classes, c.id = t.class_id)

/-- Round half away from zero at two decimals: the usual decimal
rounding that is free of banker's rounding, written from the spec's
words for comparison with `pyRound2`. -/
def round2HalfAway (q : ℚ) : ℚ :=
  if 0 ≤ q then (⌊q * 100 + 1/2⌋ : ℚ) / 100
  else -((⌊-(q * 100) + 1/2⌋ : ℚ) / 100)

/-- Every row of an upserted table is either an old row or carries the
upserted pair. -/
lemma mem_resultUpsert (sid subid m mm : Int) (rs : List ResultRow) :
    ∀ b ∈ resultUpsert sid subid m mm rs,
      b ∈ rs ∨ (b.student_id = sid ∧ b.subject_id = subid) := by
  induction rs with
  | nil =>
    intro b hb
    simp only [resultUpsert, List.mem_singleton] at hb
    subst hb
    exact Or.inr ⟨rfl, rfl⟩
  | cons r rest ih =>
    intro b hb
    by_cases h : r.student_id = sid ∧ r.subject_id = subid
    · simp only [resultUpsert] at hb
      rw [if_pos h] at hb
      rcases List.mem_cons.mp hb with rfl | hmem
      · exact Or.inr ⟨h.1, h.2⟩
      · exact Or.inl (List.mem_cons_of_mem r hmem)
    · simp only [resultUpsert] at hb
      rw [if_neg h] at hb
      rcases List.mem_cons.mp hb with rfl | hmem
      · exact Or.inl (List.mem_cons_self b rest)
      · rcases ih b hmem with hold | hpair
        · exact Or.inl (List.mem_cons_of_mem r hold)
        · exact Or.inr hpair

/-- The upsert preserves the one-row-per-pair invariant. -/
lemma pairUnique_resultUpsert (sid subid m mm : Int) {rs : List ResultRow}
    (h : pairUnique rs) : pairUnique (resultUpsert sid subid m mm rs) := by
  induction rs with
  | nil => simp [resultUpsert, pairUnique]
  | cons r rest ih =>
    obtain ⟨hhead, htail⟩ := List.pairwise_cons.mp h
    by_cases hh : r.student_id = sid ∧ r.subject_id = subid
    · unfold pairUnique
      simp only [resultUpsert]
      rw [if_pos hh]
      refine List.pairwise_cons.mpr ⟨?_, htail⟩
      intro b hb
      exact hhead b hb
    · unfold pairUnique
      simp only [resultUpsert]
      rw [if_neg hh]
      refine List.pairwise_cons.mpr ⟨?_, ih htail⟩
      intro b hb
      rcases mem_resultUpsert sid subid m mm rest b hb with hmem | hpair
      · exact hhead b hmem
      · intro hcontra
        exact hh ⟨hcontra.1.trans hpair.1, hcontra.2.trans hpair.2⟩

/-- Upserting a pair that already has a row does not change the number
of rows. -/
lemma resultUpsert_length (sid subid m mm : Int) {rs : List ResultRow}
    (h : ∃ r ∈ rs, r.student_id = sid ∧ r.subject_id = subid) :
    (resultUpsert sid subid m mm rs).length = rs.length := by
  induction rs with
  | nil =>
    obtain ⟨r, hr, _⟩ := h
    exact absurd hr (List.not_mem_nil r)
  | cons a rest ih =>
    by_cases hh : a.student_id = sid ∧ a.subject_id = subid
    · simp only [resultUpsert]
      rw [if_pos hh]
      rfl
    · simp only [resultUpsert]
      rw [if_neg hh]
      obtain ⟨r, hr, hp⟩ := h
      rcases List.mem_cons.mp hr with rfl | hmem
      · exact absurd hp hh
      · simp only [List.length_cons, ih ⟨r, hmem, hp⟩]

/-- After an upsert, the first row found for the pair carries the new
marks and max marks. -/
lemma resultUpsert_find (sid subid m mm : Int) (rs : List ResultRow) :
    (resultUpsert sid subid m mm rs).find?
        (fun r => r.student_id == sid && r.subject_id == subid) =
      some ⟨sid, subid, m, mm⟩ := by
  induction rs with
  | nil =>
    rw [show resultUpsert sid subid m mm [] = [⟨sid, subid, m, mm⟩] from rfl]
    rw [List.find?_cons_of_pos]
    simp
  | cons a rest ih =>
    by_cases hh : a.student_id = sid ∧ a.subject_id = subid
    · simp only [resultUpsert]
      rw [if_pos hh]
      rw [List.find?_cons_of_pos]
      · obtain ⟨h1, h2⟩ := hh
        cases a
        simp only at h1 h2
        subst h1
        subst h2
        rfl
      · simp [hh.1, hh.2]
    · simp only [resultUpsert]
      rw [if_neg hh]
      rw [List.find?_cons_of_neg, ih]
      simp only [Bool.and_eq_true, beq_iff_eq]
      exact fun hc => hh hc

/-- Each CSV import row preserves the one-row-per-pair invariant. -/
lemma pairUnique_importResultRow (m1 m2 : List (String × Int))
    {rs : List ResultRow} (row : ResultCsvRow) (h : pairUnique rs) :
    pairUnique (importResultRow m1 m2 rs row) := by
  unfold importResultRow
  cases hd1 : dictGet m1 row.reg_no with
  | none => exact h
  | some sid =>
    cases hd2 : dictGet m2 row.subject with
    | none => exact h
    | some subid =>
      dsimp only
      split_ifs
      · exact h
      · exact pairUnique_resultUpsert _ _ _ _ h

/-- A whole CSV import preserves the one-row-per-pair invariant. -/
lemma pairUnique_admin_results_import (cid : Int) (students : List StudentRow)
    (subjects : List SubjectRow) (rows : List ResultCsvRow)
    {rs : List ResultRow} (h : pairUnique rs) :
    pairUnique (admin_results_import cid students subjects rows rs) := by
  unfold admin_results_import
  dsimp only
  induction rows generalizing rs with
  | nil => exact h
  | cons row rest ih =>
    exact ih (pairUnique_importResultRow _ _ row h)

/-- **C1.** After any sequence of result-save operations (admin form
saves and results CSV imports) starting from a table with at most one
row per `(student, subject)` pair, the table still has at most one row
per pair; and saving a result for a pair that already has a row keeps
the row count unchanged and leaves the pair's row carrying the new
marks and max_marks — an in-place update, not a second insert. -/
theorem C1_result_upsert :
    (∀ (rs : List ResultRow) (ops : List SaveOp),
      pairUnique rs → pairUnique (applySaveOps rs ops)) ∧
    (∀ (rs : List ResultRow) (sid subid m mm : Int),
      (∃ r ∈ rs, r.student_id = sid ∧ r.subject_id = subid) →
        (resultUpsert sid subid m mm rs).length = rs.length ∧
        (resultUpsert sid subid m mm rs).find?
            (fun r => r.student_id == sid && r.subject_id == subid) =
          some ⟨sid, subid, m, mm⟩) := by
  constructor
  · intro rs ops h
    unfold applySaveOps
    induction ops generalizing rs with
    | nil => exact h
    | cons op rest ih =>
      refine ih _ ?_
      cases op with
      | formSave sid subid m mm => exact pairUnique_resultUpsert _ _ _ _ h
      | csvImport cid students subjects rows =>
        exact pairUnique_admin_results_import _ _ _ _ h
  · intro rs sid subid m mm h
    exact ⟨resultUpsert_length _ _ _ _ h, resultUpsert_find _ _ _ _ rs⟩

/-- Witness for C1: saving twice for the same pair from an empty table
keeps the invariant, and the second save updates the single row in
place. -/
theorem C1_result_upsert_witness :
    pairUnique (applySaveOps [] [.formSave 1 2 50 100, .formSave 1 2 60 100]) ∧
    (resultUpsert 1 2 60 100 [⟨1, 2, 50, 100⟩]).length = 1 ∧
    (resultUpsert 1 2 60 100 [⟨1, 2, 50, 100⟩]).find?
        (fun r => r.student_id == 1 && r.subject_id == 2) =
      some ⟨1, 2, 60, 100⟩ := by
  have h1 := C1_result_upsert.1 [] [.formSave 1 2 50 100, .formSave 1 2 60 100]
    List.Pairwise.nil
  have h2 := C1_result_upsert.2 [⟨1, 2, 50, 100⟩] 1 2 60 100
    ⟨⟨1, 2, 50, 100⟩, List.mem_singleton.mpr rfl, rfl, rfl⟩
  exact ⟨h1, h2.1, h2.2⟩

/-- **C5.** Attempting to create a second Student with a registration
number already present fails as a duplicate-constraint warning rather
than an unhandled fault, and the table — the first Student included —
is unchanged. -/
theorem C5_duplicate_reg_no (students : List StudentRow) (nextId : Int)
    (reg_no name : String) (email : Option String) (class_id : Int)
    (password : String)
    (hr : reg_no ≠ "") (hn : name ≠ "") (hp : password ≠ "")
    (hdup : ∃ t ∈ students, t.reg_no = reg_no) :
    admin_students_add students nextId reg_no name email class_id password =
      (students, .duplicateWarning) := by
  unfold admin_students_add
  rw [if_neg (by tauto)]
  rw [if_pos]
  obtain ⟨t, ht, hteq⟩ := hdup
  exact ⟨t, ht, Or.inl hteq⟩

/-- Witness for C5: adding reg_no "R1" twice leaves the store with the
single original row and reports a duplicate. -/
theorem C5_duplicate_reg_no_witness :
    admin_students_add [⟨1, "R1", "Alice", none, 1⟩] 2 "R1" "Bob" none 1 "pw" =
      ([⟨1, "R1", "Alice", none, 1⟩], .duplicateWarning) :=
  C5_duplicate_reg_no [⟨1, "R1", "Alice", none, 1⟩] 2 "R1" "Bob" none 1 "pw"
    (by decide) (by decide) (by decide)
    ⟨⟨1, "R1", "Alice", none, 1⟩, List.mem_singleton.mpr rfl, rfl⟩

/-- Folding student cascades deletes exactly the students and results
whose (student) id is listed, and touches nothing else. -/
lemma foldl_cascadeDeleteStudent (L : List Int) (s : Store) :
    (L.foldl cascadeDeleteStudent s).classes = s.classes ∧
    (L.foldl cascadeDeleteStudent s).subjects = s.subjects ∧
    (L.foldl cascadeDeleteStudent s).nextClassId = s.nextClassId ∧
    (L.foldl cascadeDeleteStudent s).nextStudentId = s.nextStudentId ∧
    (L.foldl cascadeDeleteStudent s).students =
      s.students.filter (fun t => !(L.contains t.id)) ∧
    (L.foldl cascadeDeleteStudent s).results =
      s.results.filter (fun r => !(L.contains r.student_id)) := by
  induction L generalizing s with
  | nil =>
    refine ⟨rfl, rfl, rfl, rfl, ?_, ?_⟩ <;> simp
  | cons a rest ih =>
    simp only [List.foldl_cons]
    obtain ⟨h1, h2, h3, h4, h5, h6⟩ := ih (cascadeDeleteStudent s a)
    refine ⟨h1, h2, h3, h4, ?_, ?_⟩
    · rw [h5]
      show (s.students.filter _).filter _ = _
      rw [List.filter_filter]
      apply List.filter_congr
      intro t _
      simp only [List.contains_cons, Bool.not_or]
      by_cases h : t.id = a <;> simp [h, Bool.and_comm]
    · rw [h6]
      show (s.results.filter _).filter _ = _
      rw [List.filter_filter]
      apply List.filter_congr
      intro r _
      simp only [List.contains_cons, Bool.not_or]
      by_cases h : r.student_id = a <;> simp [h, Bool.and_comm]

/-- **C6.** Deleting a present ClassRoom removes exactly that class row,
every Student belonging to it, and transitively every Result whose
student is one of those Students; Students and Results of other classes,
and all Subject rows, are unaffected.  (`hid`: primary keys of the
students table are distinct, as the database guarantees.) -/
theorem C6_delete_class_cascade (s : Store) (class_id : Int)
    (hid : (s.students.map (·.id)).Nodup)
    (hex : ∃ c ∈ s.classes, c.id = class_id) :
    admin_classes_delete s class_id = some
      { classes := s.classes.filter (fun c => !(c.id == class_id)),
        students := s.students.filter (fun t => !(t.class_id == class_id)),
        subjects := s.subjects,
        results := s.results.filter (fun r =>
          !(((s.students.filter (fun t => t.class_id == class_id)).map
              (·.id)).contains r.student_id)),
        nextClassId := s.nextClassId,
        nextStudentId := s.nextStudentId } := by
  unfold admin_classes_delete
  rw [if_pos hex]
  dsimp only
  obtain ⟨h1, h2, h3, h4, h5, h6⟩ := foldl_cascadeDeleteStudent
    ((s.students.filter (fun t => t.class_id == class_id)).map (·.id)) s
  congr 1
  have hstudents : s.students.filter (fun t =>
      !(((s.students.filter (fun t => t.class_id == class_id)).map
          (·.id)).contains t.id)) =
      s.students.filter (fun t => !(t.class_id == class_id)) := by
    apply List.filter_congr
    intro t ht
    have hiff : (((s.students.filter (fun u => u.class_id == class_id)).map
        (·.id)).contains t.id) = (t.class_id == class_id) := by
      by_cases hb : t.class_id = class_id
      · have hmem : t.id ∈ (s.students.filter (fun u => u.class_id == class_id)).map (·.id) :=
          List.mem_map.mpr ⟨t, List.mem_filter.mpr ⟨ht, by simp [hb]⟩, rfl⟩
        simp [hb, hmem]
      · have hnot : t.id ∉ (s.students.filter (fun u => u.class_id == class_id)).map (·.id) := by
          intro hmem
          obtain ⟨u, hu, huid⟩ := List.mem_map.mp hmem
          obtain ⟨humem, hucls⟩ := List.mem_filter.mp hu
          have : u = t := List.inj_on_of_nodup_map hid humem ht huid
          subst this
          exact hb (by simpa using hucls)
        simp [hb, hnot]
    rw [hiff]
  rw [h1, h2, h3, h4, h5, h6, hstudents]

/-- Witness for C6: deleting class 1 from a two-class store removes
class 1, its student 1, and student 1's result, leaving class 2's
student and result intact. -/
theorem C6_delete_class_cascade_witness :
    admin_classes_delete
      ⟨[⟨1, "C1", none⟩, ⟨2, "C2", none⟩],
       [⟨1, "R1", "A", none, 1⟩, ⟨2, "R2", "B", none, 2⟩],
       [⟨1, "Math", 1⟩],
       [⟨1, 1, 10, 100⟩, ⟨2, 1, 20, 100⟩],
       3, 3⟩ 1 = some
      ⟨[⟨2, "C2", none⟩],
       [⟨2, "R2", "B", none, 2⟩],
       [⟨1, "Math", 1⟩],
       [⟨2, 1, 20, 100⟩],
       3, 3⟩ := by
  have h := C6_delete_class_cascade
    ⟨[⟨1, "C1", none⟩, ⟨2, "C2", none⟩],
     [⟨1, "R1", "A", none, 1⟩, ⟨2, "R2", "B", none, 2⟩],
     [⟨1, "Math", 1⟩],
     [⟨1, 1, 10, 100⟩, ⟨2, 1, 20, 100⟩],
     3, 3⟩ 1
    (by decide) ⟨⟨1, "C1", none⟩, by decide, rfl⟩
  rw [h]
  rfl

/-- Sorting is a permutation: membership is unchanged by `insertSorted`. -/
lemma mem_insertSorted {α : Type} (le : α → α → Bool) (a b : α) (l : List α) :
    b ∈ insertSorted le a l ↔ b = a ∨ b ∈ l := by
  induction l with
  | nil => simp [insertSorted]
  | cons x xs ih =>
    by_cases h : le a x = true
    · simp only [insertSorted]
      rw [if_pos h]
      simp [List.mem_cons]
    · simp only [insertSorted]
      rw [if_neg h]
      simp only [List.mem_cons, ih]
      tauto

/-- Sorting is a permutation: membership is unchanged by `sortBy`. -/
lemma mem_sortBy {α : Type} (le : α → α → Bool) (b : α) (l : List α) :
    b ∈ sortBy le l ↔ b ∈ l := by
  induction l with
  | nil => simp [sortBy]
  | cons x xs ih =>
    simp only [sortBy, mem_insertSorted, List.mem_cons, ih]

/-- **C7.** A logged-in student only ever fetches their own results:
whenever the portal read returns a result list for a session student id,
that list consists (under referential integrity of `subject_id`, which
the Subject-delete cascade maintains) of exactly the Results with that
`student_id`; a session for student 5 can never obtain a Result of
student 6 (with no integrity assumption at all); and the mark sheet runs
the identical query, so the output depends only on the session's own
student id. -/
theorem C7_portal_isolation :
    (∀ (s : Store) (sid : Int) (rs : List ResultRow),
        (∀ r ∈ s.results, ∃ sub ∈ s.subjects, sub.id = r.subject_id) →
        student_portal_results s sid = some rs →
        ∀ r : ResultRow, r ∈ rs ↔ r ∈ s.results ∧ r.student_id = sid) ∧
    (∀ (s : Store) (rs : List ResultRow),
        student_portal_results s 5 = some rs →
        ∀ r ∈ rs, ¬ r.student_id = 6) ∧
    (∀ (s : Store) (sid : Int),
        student_marksheet_results s sid = student_portal_results s sid) := by
  refine ⟨?_, ?_, ?_⟩
  · intro s sid rs hint hsome r
    unfold student_portal_results at hsome
    cases hfind : s.students.find? (fun t => t.id == sid) with
    | none => rw [hfind] at hsome; exact absurd hsome (by simp)
    | some st =>
      rw [hfind] at hsome
      have hst : st.id = sid := by
        have := List.find?_some hfind
        simpa using this
      simp only [Option.some.injEq] at hsome
      subst hsome
      rw [mem_sortBy]
      simp only [List.mem_filter, Bool.and_eq_true, beq_iff_eq, List.any_eq_true]
      constructor
      · rintro ⟨⟨hmem, howner⟩, _⟩
        exact ⟨hmem, by rw [howner, hst]⟩
      · rintro ⟨hmem, howner⟩
        obtain ⟨sub, hsub, hsubid⟩ := hint r hmem
        exact ⟨⟨hmem, by rw [howner, hst]⟩, sub, hsub, hsubid⟩
  · intro s rs hsome r hr
    unfold student_portal_results at hsome
    cases hfind : s.students.find? (fun t => t.id == 5) with
    | none => rw [hfind] at hsome; exact absurd hsome (by simp)
    | some st =>
      rw [hfind] at hsome
      have hst : st.id = 5 := by
        have := List.find?_some hfind
        simpa using this
      simp only [Option.some.injEq] at hsome
      subst hsome
      rw [mem_sortBy] at hr
      obtain ⟨hin, _⟩ := List.mem_filter.mp hr
      obtain ⟨_, howner⟩ := List.mem_filter.mp hin
      intro h6
      rw [beq_iff_eq] at howner
      omega
  · intro s sid
    rfl

/-- Witness for C7: in a two-student store the session for student 5
sees exactly its own result row, and in particular not student 6's. -/
theorem C7_portal_isolation_witness :
    ((⟨5, 1, 80, 100⟩ : ResultRow) ∈ [(⟨5, 1, 80, 100⟩ : ResultRow)] ↔
      (⟨5, 1, 80, 100⟩ : ResultRow) ∈
          (⟨[⟨1, "C1", none⟩],
            [⟨5, "R5", "Eve", none, 1⟩, ⟨6, "R6", "Max", none, 1⟩],
            [⟨1, "Math", 1⟩],
            [⟨5, 1, 80, 100⟩, ⟨6, 1, 70, 100⟩], 2, 7⟩ : Store).results ∧
        (⟨5, 1, 80, 100⟩ : ResultRow).student_id = 5) ∧
    ¬ (⟨6, 1, 70, 100⟩ : ResultRow) ∈ [(⟨5, 1, 80, 100⟩ : ResultRow)] := by
  constructor
  · exact C7_portal_isolation.1
      ⟨[⟨1, "C1", none⟩],
       [⟨5, "R5", "Eve", none, 1⟩, ⟨6, "R6", "Max", none, 1⟩],
       [⟨1, "Math", 1⟩],
       [⟨5, 1, 80, 100⟩, ⟨6, 1, 70, 100⟩], 2, 7⟩ 5 [⟨5, 1, 80, 100⟩]
      (by decide) rfl ⟨5, 1, 80, 100⟩
  · decide

/-- **C9.** The students listing's "more pages exist" flag is true
exactly when `page * page_size` is less than the total count of
matching students; with 23 matching students and page size 10, pages 1
and 2 report true and page 3 reports false. -/
theorem C9_pagination :
    (∀ (students : List StudentRow) (q : Option String) (page pp : Int),
        1 ≤ page →
        ((admin_students_page students q page pp).2 = true ↔
          page * pp < ((students.filter (matchesQ q)).length : Int))) ∧
    (sample23.filter (matchesQ none)).length = 23 ∧
    (admin_students_page sample23 none 1 10).2 = true ∧
    (admin_students_page sample23 none 2 10).2 = true ∧
    (admin_students_page sample23 none 3 10).2 = false := by
  refine ⟨?_, by decide, by decide, by decide, by decide⟩
  intro students q page pp hpage
  unfold admin_students_page
  dsimp only
  rw [max_eq_right hpage]
  exact decide_eq_true_iff

/-- Witness for C9: the flag characterization applied on the concrete
23-student store at page 1. -/
theorem C9_pagination_witness :
    (admin_students_page sample23 none 1 10).2 = true ↔
      1 * 10 < ((sample23.filter (matchesQ none)).length : Int) :=
  C9_pagination.1 sample23 none 1 10 (by norm_num)

/-- `or ""` after `or None` is the identity on CSV strings. -/
lemma orBlank_orNone (x : String) : orBlank (orNone x) = x := by
  unfold orNone orBlank
  split_ifs with h
  · exact h.symm
  · rfl

/-- With distinct class primary keys, filtering on a present key yields
exactly the one matching row. -/
lemma filter_classId_singleton {classes : List ClassRow}
    (hnd : (classes.map (·.id)).Nodup) {c : ClassRow} (hc : c ∈ classes) :
    classes.filter (fun d => d.id == c.id) = [c] := by
  induction classes with
  | nil => exact absurd hc (List.not_mem_nil c)
  | cons d rest ih =>
    rw [List.map_cons, List.nodup_cons] at hnd
    by_cases hd : d.id = c.id
    · have hcd : c = d := by
        rcases List.mem_cons.mp hc with rfl | hcr
        · rfl
        · exact absurd (List.mem_map.mpr ⟨c, hcr, hd.symm⟩) hnd.1
      subst hcd
      rw [List.filter_cons_of_pos (by simp)]
      have : rest.filter (fun d => d.id == c.id) = [] := by
        rw [List.filter_eq_nil_iff]
        intro b hb
        simp only [beq_iff_eq]
        intro hbid
        exact hnd.1 (List.mem_map.mpr ⟨b, hb, hbid⟩)
      rw [this]
    · rw [List.filter_cons_of_neg (by simp [hd])]
      rcases List.mem_cons.mp hc with rfl | hcr
      · exact absurd rfl hd
      · exact ih hnd.2 hcr

/-- Adding a fresh student under a class whose display pair matches the
row appends exactly the row's tuple and reg_no, preserving the invariant
and the class table. -/
lemma addStudentIfNew_spec (s : Store) (c : ClassRow) (row : StudentCsvRow)
    (hInv : ImportInv s) (hc : c ∈ s.classes)
    (hcname : c.name = row.class_name) (hcsec : orBlank c.sec = row.sec)
    (hfresh : row.reg_no ∉ s.students.map (·.reg_no)) :
    ImportInv (addStudentIfNew s c row) ∧
    (addStudentIfNew s c row).classes = s.classes ∧
    (addStudentIfNew s c row).nextClassId = s.nextClassId ∧
    studentTuples (addStudentIfNew s c row) = studentTuples s ++ [rowTuple row] ∧
    (addStudentIfNew s c row).students.map (·.reg_no) =
      s.students.map (·.reg_no) ++ [row.reg_no] := by
  have hany : (s.students.any (fun t => t.reg_no == row.reg_no)) = false := by
    rw [Bool.eq_false_iff]
    intro htrue
    obtain ⟨t, ht, hteq⟩ := List.any_eq_true.mp htrue
    exact hfresh (List.mem_map.mpr ⟨t, ht, by simpa using hteq⟩)
  unfold addStudentIfNew
  simp only [hany, Bool.false_eq_true, if_false]
  refine ⟨⟨hInv.1, hInv.2.1, ?_⟩, by trivial, by trivial, ?_, ?_⟩
  · intro t ht
    rcases List.mem_append.mp ht with hold | hnew
    · exact hInv.2.2 t hold
    · rw [List.mem_singleton] at hnew
      subst hnew
      exact ⟨c, hc, rfl⟩
  · unfold studentTuples
    dsimp only
    rw [List.flatMap_append]
    congr 1
    rw [List.flatMap_singleton]
    dsimp only
    rw [filter_classId_singleton hInv.1 hc]
    simp [rowTuple, hcname, hcsec]
  · dsimp only
    rw [List.map_append]
    rfl

/-- One import loop iteration on a fresh `reg_no` appends exactly the
row's tuple and reg_no, preserves the invariant, and extends the class
pairs by at most the row's pair. -/
lemma import_row_spec (s : Store) (row : StudentCsvRow)
    (hInv : ImportInv s) (hfresh : row.reg_no ∉ s.students.map (·.reg_no)) :
    ImportInv (admin_students_import_row s row) ∧
    studentTuples (admin_students_import_row s row) =
      studentTuples s ++ [rowTuple row] ∧
    (admin_students_import_row s row).students.map (·.reg_no) =
      s.students.map (·.reg_no) ++ [row.reg_no] ∧
    (∀ p, p ∈ classPairs (admin_students_import_row s row) ↔
      p ∈ classPairs s ∨ p = rowPair row) := by
  unfold admin_students_import_row
  cases hfind : s.classes.find?
      (fun c => c.name == row.class_name && c.sec == orNone row.sec) with
  | some c =>
    have hcmem : c ∈ s.classes := List.mem_of_find?_eq_some hfind
    have hcprop := List.find?_some hfind
    simp only [Bool.and_eq_true, beq_iff_eq] at hcprop
    obtain ⟨hcname, hcsec⟩ := hcprop
    have hcsec' : orBlank c.sec = row.sec := by rw [hcsec, orBlank_orNone]
    obtain ⟨h1, h2, h3, h4, h5⟩ :=
      addStudentIfNew_spec s c row hInv hcmem hcname hcsec' hfresh
    refine ⟨h1, h4, h5, ?_⟩
    intro p
    unfold classPairs
    rw [h2]
    constructor
    · exact Or.inl
    · rintro (hp | rfl)
      · exact hp
      · exact List.mem_map.mpr ⟨c, hcmem, by simp [rowPair, hcname, hcsec']⟩
  | none =>
    have hInv1 : ImportInv
        { s with
          classes := s.classes ++ [⟨s.nextClassId, row.class_name, orNone row.sec⟩],
          nextClassId := s.nextClassId + 1 } := by
      refine ⟨?_, ?_, ?_⟩
      · dsimp only
        rw [List.map_append, List.nodup_append]
        refine ⟨hInv.1, List.nodup_singleton _, ?_⟩
        intro a ha hb
        simp only [List.map_cons, List.map_nil, List.mem_singleton] at hb
        obtain ⟨c0, hc0, hc0id⟩ := List.mem_map.mp ha
        have := hInv.2.1 c0 hc0
        omega
      · intro c hcmem
        dsimp only at hcmem ⊢
        rcases List.mem_append.mp hcmem with hold | hnew
        · have := hInv.2.1 c hold
          omega
        · rw [List.mem_singleton] at hnew
          subst hnew
          dsimp only
          omega
      · intro t ht
        obtain ⟨c0, hc0, hcid⟩ := hInv.2.2 t ht
        exact ⟨c0, List.mem_append_left _ hc0, hcid⟩
    have htuples1 : studentTuples
        { s with
          classes := s.classes ++ [⟨s.nextClassId, row.class_name, orNone row.sec⟩],
          nextClassId := s.nextClassId + 1 } = studentTuples s := by
      unfold studentTuples
      dsimp only
      apply List.flatMap_congr
      intro st hst
      rw [List.filter_append]
      have hnil : [(⟨s.nextClassId, row.class_name, orNone row.sec⟩ : ClassRow)].filter
          (fun c => c.id == st.class_id) = [] := by
        obtain ⟨c0, hc0, hcid⟩ := hInv.2.2 st hst
        have hlt := hInv.2.1 c0 hc0
        rw [List.filter_cons_of_neg (by simp only [beq_iff_eq]; omega),
          List.filter_nil]
      rw [hnil, List.append_nil]
    have hpairs1 : classPairs
        { s with
          classes := s.classes ++ [⟨s.nextClassId, row.class_name, orNone row.sec⟩],
          nextClassId := s.nextClassId + 1 } = classPairs s ++ [rowPair row] := by
      unfold classPairs
      dsimp only
      rw [List.map_append]
      congr 1
      simp [rowPair, orBlank_orNone]
    obtain ⟨h1, h2, h3, h4, h5⟩ := addStudentIfNew_spec
      { s with
        classes := s.classes ++ [⟨s.nextClassId, row.class_name, orNone row.sec⟩],
        nextClassId := s.nextClassId + 1 }
      ⟨s.nextClassId, row.class_name, orNone row.sec⟩ row hInv1
      (List.mem_append_right _ (List.mem_singleton.mpr rfl)) rfl
      (orBlank_orNone row.sec) hfresh
    refine ⟨h1, ?_, h5, ?_⟩
    · rw [h4, htuples1]
    · intro p
      have hcp : classPairs (addStudentIfNew
          { s with
            classes := s.classes ++ [⟨s.nextClassId, row.class_name, orNone row.sec⟩],
            nextClassId := s.nextClassId + 1 }
          ⟨s.nextClassId, row.class_name, orNone row.sec⟩ row) =
          classPairs s ++ [rowPair row] := by
        unfold classPairs
        rw [h2]
        rw [show ({ s with
          classes := s.classes ++ [⟨s.nextClassId, row.class_name, orNone row.sec⟩],
          nextClassId := s.nextClassId + 1 } : Store).classes =
          s.classes ++ [⟨s.nextClassId, row.class_name, orNone row.sec⟩] from rfl]
        rw [List.map_append]
        congr 1
        simp [rowPair, orBlank_orNone]
      rw [hcp, List.mem_append, List.mem_singleton]

/-- A whole import of rows with fresh, pairwise-distinct reg_nos
appends exactly the rows' tuples and reg_nos, and its class pairs are
the old ones plus the rows' pairs. -/
lemma import_foldl_spec (rows : List StudentCsvRow) :
    ∀ (s : Store), ImportInv s →
      (rows.map (·.reg_no)).Nodup →
      (∀ r ∈ rows, r.reg_no ∉ s.students.map (·.reg_no)) →
      ImportInv (admin_students_import s rows) ∧
      studentTuples (admin_students_import s rows) =
        studentTuples s ++ rows.map rowTuple ∧
      (admin_students_import s rows).students.map (·.reg_no) =
        s.students.map (·.reg_no) ++ rows.map (·.reg_no) ∧
      (∀ p, p ∈ classPairs (admin_students_import s rows) ↔
        p ∈ classPairs s ∨ p ∈ rows.map rowPair) := by
  induction rows with
  | nil =>
    intro s hInv _ _
    refine ⟨hInv, by simp [admin_students_import], by simp [admin_students_import], ?_⟩
    intro p
    simp [admin_students_import]
  | cons row rest ih =>
    intro s hInv hnd hdisj
    rw [List.map_cons, List.nodup_cons] at hnd
    obtain ⟨hrow_notin, hnd_rest⟩ := hnd
    obtain ⟨i1, i2, i3, i4⟩ := import_row_spec s row hInv
      (hdisj row (List.mem_cons_self row rest))
    have hdisj2 : ∀ r ∈ rest,
        r.reg_no ∉ (admin_students_import_row s row).students.map (·.reg_no) := by
      intro r hr
      rw [i3, List.mem_append, List.mem_singleton]
      push_neg
      refine ⟨hdisj r (List.mem_cons_of_mem row hr), ?_⟩
      intro heq
      exact hrow_notin (List.mem_map.mpr ⟨r, hr, heq⟩)
    have hstep : admin_students_import s (row :: rest) =
        admin_students_import (admin_students_import_row s row) rest := rfl
    obtain ⟨j1, j2, j3, j4⟩ := ih (admin_students_import_row s row) i1 hnd_rest hdisj2
    rw [hstep]
    refine ⟨j1, ?_, ?_, ?_⟩
    · rw [j2, i2, List.append_assoc, List.singleton_append, List.map_cons]
    · rw [j3, i3, List.append_assoc, List.singleton_append, List.map_cons]
    · intro p
      rw [j4 p, i4 p, List.map_cons, List.mem_cons]
      tauto

/-- A list whose elements are mapped to singletons flattens to the
map. -/
lemma flatMap_singleton_map {α β : Type} (f : α → β) (l : List α) :
    l.flatMap (fun a => [f a]) = l.map f := by
  induction l with
  | nil => rfl
  | cons a rest ih => rw [List.flatMap_cons, ih]; rfl

/-- The `(reg_no, name, class_name, section)` view of the exported CSV
is exactly the store's student-tuple view. -/
lemma map_rowTuple_export (s : Store) :
    (admin_students_export s).map rowTuple = studentTuples s := by
  unfold admin_students_export studentTuples
  rw [List.map_flatMap]
  apply List.flatMap_congr
  intro st _
  rw [List.map_map]
  rfl

/-- With distinct class keys and resolvable students, the export emits
one row per student, so its reg_no column is the students' reg_no
column. -/
lemma export_reg_nos (s : Store) (hcid : (s.classes.map (·.id)).Nodup)
    (hfk : ∀ t ∈ s.students, ∃ c ∈ s.classes, c.id = t.class_id) :
    (admin_students_export s).map (·.reg_no) = s.students.map (·.reg_no) := by
  unfold admin_students_export
  rw [List.map_flatMap]
  have hsingle : ∀ st ∈ s.students,
      ((s.classes.filter (fun c => c.id == st.class_id)).map (fun c =>
        (⟨st.reg_no, st.name, orBlank st.email, c.name, orBlank c.sec⟩ :
          StudentCsvRow))).map (·.reg_no) = [st.reg_no] := by
    intro st hst
    obtain ⟨c, hc, hcid_eq⟩ := hfk st hst
    rw [← hcid_eq, filter_classId_singleton hcid hc]
    rfl
  rw [List.flatMap_congr hsingle, flatMap_singleton_map]

/-- **C8.** CSV round trip: exporting all Students and importing the
CSV into an empty store reproduces exactly the original
`(reg_no, name, class_name, section)` tuples, and the ClassRooms
auto-created during the import carry exactly the exported
`(class_name, section)` pairs.  The hypotheses are the database's own
constraints: distinct student reg_nos, distinct class primary keys, and
a resolvable `class_id` for every student. -/
theorem C8_csv_round_trip (s : Store)
    (hreg : (s.students.map (·.reg_no)).Nodup)
    (hcid : (s.classes.map (·.id)).Nodup)
    (hfk : ∀ t ∈ s.students, ∃ c ∈ s.classes, c.id = t.class_id) :
    studentTuples (admin_students_import emptyStore (admin_students_export s)) =
      studentTuples s ∧
    (∀ p, p ∈ classPairs (admin_students_import emptyStore (admin_students_export s)) ↔
      p ∈ (admin_students_export s).map rowPair) := by
  have hrows_nd : ((admin_students_export s).map (·.reg_no)).Nodup := by
    rw [export_reg_nos s hcid hfk]
    exact hreg
  have hInv0 : ImportInv emptyStore := by
    refine ⟨List.nodup_nil, ?_, ?_⟩
    · intro c hc
      exact absurd hc (List.not_mem_nil c)
    · intro t ht
      exact absurd ht (List.not_mem_nil t)
  have hdisj0 : ∀ r ∈ admin_students_export s,
      r.reg_no ∉ (emptyStore.students.map (·.reg_no)) := by
    intro r _ h
    exact absurd h (List.not_mem_nil _)
  obtain ⟨j1, j2, j3, j4⟩ := import_foldl_spec (admin_students_export s)
    emptyStore hInv0 hrows_nd hdisj0
  constructor
  · rw [j2, map_rowTuple_export]
    rfl
  · intro p
    rw [j4 p]
    have : p ∉ classPairs emptyStore := List.not_mem_nil p
    tauto

/-- Witness for C8: a one-class, one-student store (section "A") round
trips exactly. -/
theorem C8_csv_round_trip_witness :
    studentTuples (admin_students_import emptyStore (admin_students_export
      ⟨[⟨1, "Ten", some "A"⟩], [⟨1, "R1", "Ann", none, 1⟩], [], [], 2, 2⟩)) =
      studentTuples ⟨[⟨1, "Ten", some "A"⟩], [⟨1, "R1", "Ann", none, 1⟩], [], [], 2, 2⟩ ∧
    ((("Ten", "A") : String × String) ∈ classPairs (admin_students_import emptyStore
        (admin_students_export
          ⟨[⟨1, "Ten", some "A"⟩], [⟨1, "R1", "Ann", none, 1⟩], [], [], 2, 2⟩)) ↔
      (("Ten", "A") : String × String) ∈ (admin_students_export
        ⟨[⟨1, "Ten", some "A"⟩], [⟨1, "R1", "Ann", none, 1⟩], [], [], 2, 2⟩).map rowPair) := by
  have h := C8_csv_round_trip
    ⟨[⟨1, "Ten", some "A"⟩], [⟨1, "R1", "Ann", none, 1⟩], [], [], 2, 2⟩
    (by decide) (by decide) (by decide)
  exact ⟨h.1, h.2 ("Ten", "A")⟩

/-- `rndHalfEven` never rounds below an integer lower bound of its
argument. -/
lemma rndHalfEven_ge (n : ℤ) (q : ℚ) (h : (n : ℚ) ≤ q) : n ≤ rndHalfEven q := by
  have hf : n ≤ ⌊q⌋ := Int.le_floor.mpr h
  unfold rndHalfEven
  dsimp only
  split_ifs <;> omega

/-- `rndHalfEven q` is a nearest integer to `q`, and on an exact tie the
chosen integer is even: Python's `round` tie-breaking rule. -/
lemma rndHalfEven_spec (q : ℚ) :
    |q - (rndHalfEven q : ℚ)| ≤ 1/2 ∧
      (|q - (rndHalfEven q : ℚ)| = 1/2 → Even (rndHalfEven q)) := by
  have h0 : ((⌊q⌋ : ℤ) : ℚ) ≤ q := Int.floor_le q
  have h1 : q < ⌊q⌋ + 1 := Int.lt_floor_add_one q
  unfold rndHalfEven
  dsimp only
  split_ifs with hlt hgt heven
  · rw [abs_of_nonneg (by linarith)]
    exact ⟨by linarith, fun habs => absurd habs (by intro he; linarith)⟩
  · rw [abs_of_nonpos (by push_cast; linarith)]
    push_cast
    exact ⟨by linarith, fun habs => absurd habs (by intro he; linarith)⟩
  · have hr : q - ⌊q⌋ = 1/2 := le_antisymm (not_lt.mp hgt) (not_lt.mp hlt)
    rw [abs_of_nonneg (by linarith)]
    exact ⟨by linarith, fun _ => Int.even_iff.mpr heven⟩
  · have hr : q - ⌊q⌋ = 1/2 := le_antisymm (not_lt.mp hgt) (not_lt.mp hlt)
    rw [abs_of_nonpos (by push_cast; linarith)]
    push_cast
    have hmod : ⌊q⌋ % 2 = 1 := by omega
    exact ⟨by linarith, fun _ => Int.even_iff.mpr (by omega)⟩

/-- The first rung of the grade ladder: any percentage at least 90 gets
the grade `"A+"`. -/
lemma letterGrade_of_ge_90 {p : ℚ} (h : 90 ≤ p) : letterGrade p = "A+" := by
  unfold letterGrade
  split_ifs with h90
  · rfl
  · exact absurd h h90

/-- **C2.** The letter grade is chosen by a high-to-low threshold ladder
with inclusive lower bounds, first match winning: ≥90 → "A+", ≥80 → "A",
≥70 → "B+", ≥60 → "B", ≥50 → "C", ≥40 → "D", else "F"; and through
`compute_totals`, a percentage of exactly 90.00 yields "A+" while 89.99
yields "A". -/
theorem C2_grade_ladder :
    (∀ p : ℚ, 90 ≤ p → letterGrade p = "A+") ∧
    (∀ p : ℚ, 80 ≤ p → p < 90 → letterGrade p = "A") ∧
    (∀ p : ℚ, 70 ≤ p → p < 80 → letterGrade p = "B+") ∧
    (∀ p : ℚ, 60 ≤ p → p < 70 → letterGrade p = "B") ∧
    (∀ p : ℚ, 50 ≤ p → p < 60 → letterGrade p = "C") ∧
    (∀ p : ℚ, 40 ≤ p → p < 50 → letterGrade p = "D") ∧
    (∀ p : ℚ, p < 40 → letterGrade p = "F") ∧
    (compute_totals [⟨1, 1, 9000, 10000⟩]).percentage = 90 ∧
    (compute_totals [⟨1, 1, 9000, 10000⟩]).grade = "A+" ∧
    (compute_totals [⟨1, 1, 8999, 10000⟩]).percentage = 8999/100 ∧
    (compute_totals [⟨1, 1, 8999, 10000⟩]).grade = "A" := by
  refine ⟨fun p h => letterGrade_of_ge_90 h, ?_, ?_, ?_, ?_, ?_, ?_, ?_, ?_, ?_, ?_⟩
  · intro p h1 h2; unfold letterGrade; split_ifs <;> first | rfl | linarith
  · intro p h1 h2; unfold letterGrade; split_ifs <;> first | rfl | linarith
  · intro p h1 h2; unfold letterGrade; split_ifs <;> first | rfl | linarith
  · intro p h1 h2; unfold letterGrade; split_ifs <;> first | rfl | linarith
  · intro p h1 h2; unfold letterGrade; split_ifs <;> first | rfl | linarith
  · intro p h1; unfold letterGrade; split_ifs <;> first | rfl | linarith
  · simp only [compute_totals, pyRound2, rndHalfEven, List.map, List.sum, letterGrade]
    norm_num
  · simp only [compute_totals, pyRound2, rndHalfEven, List.map, List.sum, letterGrade]
    norm_num
  · simp only [compute_totals, pyRound2, rndHalfEven, List.map, List.sum, letterGrade]
    norm_num
  · simp only [compute_totals, pyRound2, rndHalfEven, List.map, List.sum, letterGrade]
    norm_num

/-- Witness for C2: the band implications applied at concrete
percentages. -/
theorem C2_grade_ladder_witness :
    letterGrade 95 = "A+" ∧ letterGrade (895/10) = "A" :=
  ⟨C2_grade_ladder.1 95 (by norm_num),
   C2_grade_ladder.2.1 (895/10) (by norm_num) (by norm_num)⟩

/-- **C3.** `compute_totals` never divides by zero: the returned
`max_total` is the sum of the `max_marks` fields except that a zero sum
is substituted with 1, so `max_total` is never zero and the function
returns normally (it is a total function). -/
theorem C3_max_total_floor :
    ∀ results : List ResultRow,
      (compute_totals results).max_total =
        (if (results.map (·.max_marks)).sum = 0 then 1
         else (results.map (·.max_marks)).sum) ∧
      (compute_totals results).max_total ≠ 0 := by
  intro results
  refine ⟨rfl, ?_⟩
  show (if (results.map (·.max_marks)).sum = 0 then (1 : ℤ)
        else (results.map (·.max_marks)).sum) ≠ 0
  split_ifs with h
  · exact one_ne_zero
  · exact h

/-- **C4, counterexample.** The percentage is *not* produced by a
rounding free of round-half-to-even: on the exact tie 0.125 the code
rounds down to 0.12 (the even side), where half-away-from-zero rounding
gives 0.13, while on the exact tie 0.375 it rounds up to 0.38 (again the
even side) — the signature of banker's rounding. -/
theorem C4_counterexample :
    (compute_totals [⟨1, 1, 1, 800⟩]).percentage = 12/100 ∧
    (compute_totals [⟨1, 1, 3, 800⟩]).percentage = 38/100 ∧
    round2HalfAway (((1 : ℚ)) / ((800 : ℚ)) * 100) = 13/100 ∧
    (compute_totals [⟨1, 1, 1, 800⟩]).percentage ≠
      round2HalfAway (((1 : ℚ)) / ((800 : ℚ)) * 100) := by
  refine ⟨?_, ?_, ?_, ?_⟩
  · simp only [compute_totals, pyRound2, rndHalfEven, List.map, List.sum]
    norm_num
  · simp only [compute_totals, pyRound2, rndHalfEven, List.map, List.sum]
    norm_num
  · unfold round2HalfAway
    norm_num
  · simp only [compute_totals, pyRound2, rndHalfEven, round2HalfAway, List.map, List.sum]
    norm_num

/-- **C4, amended.** For every list of results, the percentage returned
by `compute_totals` equals `total / max_total * 100` rounded to two
fractional digits with round-half-to-even (banker's rounding): it is
`n / 100` for an integer `n` nearest to the exact value times 100, and
on an exact tie `n` is even. -/
theorem C4_percentage_rounding :
    ∀ results : List ResultRow,
      ∃ n : ℤ,
        (compute_totals results).percentage = (n : ℚ) / 100 ∧
        |((compute_totals results).total : ℚ) /
            ((compute_totals results).max_total : ℚ) * 100 * 100 - n| ≤ 1/2 ∧
        (|((compute_totals results).total : ℚ) /
            ((compute_totals results).max_total : ℚ) * 100 * 100 - n| = 1/2 →
          Even n) := by
  intro results
  have hpct : (compute_totals results).percentage =
      (rndHalfEven (((compute_totals results).total : ℚ) /
        ((compute_totals results).max_total : ℚ) * 100 * 100) : ℚ) / 100 := rfl
  obtain ⟨hle, htie⟩ := rndHalfEven_spec (((compute_totals results).total : ℚ) /
    ((compute_totals results).max_total : ℚ) * 100 * 100)
  exact ⟨_, hpct, hle, htie⟩

/-- Witness for C4 (amended): the rounding characterization applied at a
concrete input. -/
theorem C4_percentage_rounding_witness :
    ∃ n : ℤ,
      (compute_totals [⟨1, 1, 1, 800⟩]).percentage = (n : ℚ) / 100 ∧
      |((compute_totals [⟨1, 1, 1, 800⟩]).total : ℚ) /
          ((compute_totals [⟨1, 1, 1, 800⟩]).max_total : ℚ) * 100 * 100 - n| ≤ 1/2 ∧
      (|((compute_totals [⟨1, 1, 1, 800⟩]).total : ℚ) /
          ((compute_totals [⟨1, 1, 1, 800⟩]).max_total : ℚ) * 100 * 100 - n| = 1/2 →
        Even n) :=
  C4_percentage_rounding [⟨1, 1, 1, 800⟩]

/-- **C10, counterexample.** Two failures of the claim as stated: with
marks 25001 out of 25000 (marks sum exceeds max sum) the percentage is
exactly 100, not strictly greater than 100; and with marks 1 and
max_marks −5 (marks sum exceeds max sum, which is unguardedly negative)
the grade is "F", not "A+". -/
theorem C10_counterexample :
    ((compute_totals [⟨1, 1, 25001, 25000⟩]).percentage = 100 ∧
      ¬ 100 < (compute_totals [⟨1, 1, 25001, 25000⟩]).percentage ∧
      (25000 : ℤ) < 25001) ∧
    ((compute_totals [⟨1, 1, 1, -5⟩]).grade = "F" ∧ (-5 : ℤ) < 1) := by
  constructor
  · refine ⟨?_, ?_, by norm_num⟩
    · simp only [compute_totals, pyRound2, rndHalfEven, List.map, List.sum]
      norm_num
    · simp only [compute_totals, pyRound2, rndHalfEven, List.map, List.sum]
      norm_num
  · refine ⟨?_, by norm_num⟩
    simp only [compute_totals, pyRound2, rndHalfEven, List.map, List.sum, letterGrade]
    norm_num

/-- **C10, amended.** `compute_totals` imposes no upper bound relating
marks to max_marks: for every non-empty result list whose sum of
max_marks is positive and whose sum of marks exceeds that sum, the
function still returns normally with the unclamped total, a percentage
of at least 100, and letter grade "A+". -/
theorem C10_no_upper_bound (results : List ResultRow)
    (hne : results ≠ [])
    (hpos : 0 < (results.map (·.max_marks)).sum)
    (hgt : (results.map (·.max_marks)).sum < (results.map (·.marks)).sum) :
    (compute_totals results).total = (results.map (·.marks)).sum ∧
    100 ≤ (compute_totals results).percentage ∧
    (compute_totals results).grade = "A+" := by
  have hmax : (compute_totals results).max_total = (results.map (·.max_marks)).sum := by
    show (if (results.map (·.max_marks)).sum = 0 then (1 : ℤ)
          else (results.map (·.max_marks)).sum) = _
    rw [if_neg (by omega)]
  have htot : (compute_totals results).total = (results.map (·.marks)).sum := rfl
  have hx : (10000 : ℚ) ≤ ((compute_totals results).total : ℚ) /
      ((compute_totals results).max_total : ℚ) * 100 * 100 := by
    rw [htot, hmax]
    have hposq : (0 : ℚ) < ((results.map (·.max_marks)).sum : ℤ) := by
      exact_mod_cast hpos
    have hgtq : (((results.map (·.max_marks)).sum : ℤ) : ℚ) ≤
        (((results.map (·.marks)).sum : ℤ) : ℚ) := by
      exact_mod_cast le_of_lt hgt
    have h1 : (1 : ℚ) ≤ (((results.map (·.marks)).sum : ℤ) : ℚ) /
        (((results.map (·.max_marks)).sum : ℤ) : ℚ) :=
      (one_le_div hposq).mpr hgtq
    nlinarith
  have hpct : (compute_totals results).percentage =
      (rndHalfEven (((compute_totals results).total : ℚ) /
        ((compute_totals results).max_total : ℚ) * 100 * 100) : ℚ) / 100 := rfl
  have hn : (10000 : ℤ) ≤ rndHalfEven (((compute_totals results).total : ℚ) /
      ((compute_totals results).max_total : ℚ) * 100 * 100) := by
    apply rndHalfEven_ge
    exact_mod_cast hx
  have hge : (100 : ℚ) ≤ (compute_totals results).percentage := by
    rw [hpct]
    have : (10000 : ℚ) ≤ (rndHalfEven (((compute_totals results).total : ℚ) /
        ((compute_totals results).max_total : ℚ) * 100 * 100) : ℚ) := by
      exact_mod_cast hn
    linarith
  have hgrade : (compute_totals results).grade =
      letterGrade (compute_totals results).percentage := rfl
  exact ⟨htot, hge, by rw [hgrade]; exact letterGrade_of_ge_90 (by linarith)⟩

/-- Witness for C10 (amended): 150 marks out of 100 give percentage 150
and grade "A+". -/
theorem C10_no_upper_bound_witness :
    (compute_totals [⟨1, 1, 150, 100⟩]).total = 150 ∧
    100 ≤ (compute_totals [⟨1, 1, 150, 100⟩]).percentage ∧
    (compute_totals [⟨1, 1, 150, 100⟩]).grade = "A+" := by
  have h := C10_no_upper_bound [⟨1, 1, 150, 100⟩]
    (by simp) (by decide) (by decide)
  exact ⟨h.1, h.2.1, h.2.2⟩

end SRMS
